import Mathlib

/-!
Verification development for the PDF outline-extraction pipeline
(`process_pdfs.py`): a shallow embedding of the line normalizer, font
hierarchy tagger, heading classifier, deduplication, vertical grouper,
level breakpoint filter and title resolver, together with theorems about
the claims of the specification.

Numbers that are Python floats in the source (font sizes, coordinates,
page dimensions) are modelled as exact rationals.  To keep every
definition kernel-executable we use a small normalized fraction type `Q`
(Mathlib's `Rat` operations are `@[irreducible]` and do not reduce).
Strings are modelled over their character lists; the Python string
predicates used by the source (`strip`, `lower`, `isupper`, `isspace`,
`in`, `count`, `split`) are reimplemented for the ASCII fragment the
source's regular expressions operate on.
-/

namespace PdfOutline

/-! ### Exact rational numbers -/

/-- Normalized fraction: `den` is kept positive by `mkQ`. -/
structure Q where
  num : Int
  den : Int
deriving DecidableEq, Repr

/-- Build a normalized fraction (positive denominator, reduced by gcd). -/
def mkQ (n d : Int) : Q :=
  if d = 0 then ⟨0, 1⟩
  else
    let n2 : Int := if d < 0 then -n else n
    let d2 : Int := if d < 0 then -d else d
    let g : Int := Int.ofNat (Nat.gcd n2.natAbs d2.natAbs)
    ⟨n2 / g, d2 / g⟩

instance (n : Nat) : OfNat Q n := ⟨⟨Int.ofNat n, 1⟩⟩

def Q.add (a b : Q) : Q := mkQ (a.num * b.den + b.num * a.den) (a.den * b.den)

def Q.sub (a b : Q) : Q := mkQ (a.num * b.den - b.num * a.den) (a.den * b.den)

def Q.mul (a b : Q) : Q := mkQ (a.num * b.num) (a.den * b.den)

def Q.div (a b : Q) : Q := mkQ (a.num * b.den) (a.den * b.num)

def Q.neg (a : Q) : Q := ⟨-a.num, a.den⟩

instance : Add Q := ⟨Q.add⟩
instance : Sub Q := ⟨Q.sub⟩
instance : Mul Q := ⟨Q.mul⟩
instance : Div Q := ⟨Q.div⟩
instance : Neg Q := ⟨Q.neg⟩

def Q.le (a b : Q) : Prop := a.num * b.den ≤ b.num * a.den

def Q.lt (a b : Q) : Prop := a.num * b.den < b.num * a.den

instance : LE Q := ⟨Q.le⟩
instance : LT Q := ⟨Q.lt⟩

instance (a b : Q) : Decidable (a ≤ b) :=
  inferInstanceAs (Decidable (a.num * b.den ≤ b.num * a.den))

instance (a b : Q) : Decidable (a < b) :=
  inferInstanceAs (Decidable (a.num * b.den < b.num * a.den))

/-- Python `abs` on our fraction type. -/
def qAbs (a : Q) : Q := if a.num < 0 then ⟨-a.num, a.den⟩ else a

/-- Python truthiness of a possibly-missing float (`None` and `0.0` are falsy). -/
def qTruthy : Option Q → Bool
  | none => false
  | some s => s.num != 0

/-! ### Character classes and Python string primitives (ASCII fragment) -/

def isLowerCh (c : Char) : Bool := 'a' ≤ c && c ≤ 'z'

def isUpperCh (c : Char) : Bool := 'A' ≤ c && c ≤ 'Z'

def isLetterCh (c : Char) : Bool := isLowerCh c || isUpperCh c

def isDigitCh (c : Char) : Bool := '0' ≤ c && c ≤ '9'

def isWsCh (c : Char) : Bool := c = ' ' || c = '\t' || c = '\n' || c = '\r'

/-- Regex `\w`: letters, digits and underscore. -/
def isWordCh (c : Char) : Bool := isLetterCh c || isDigitCh c || c = '_'

/-- A cased character in the sense of Python `str.isupper`. -/
def isCasedCh (c : Char) : Bool := isLowerCh c || isUpperCh c

def stripList (l : List Char) : List Char :=
  ((l.dropWhile isWsCh).reverse.dropWhile isWsCh).reverse

/-- Python `str.strip()`. -/
def pyStrip (s : String) : String := String.mk (stripList s.toList)

/-- Python `str.lstrip()`. -/
def pyLstrip (s : String) : String := String.mk (s.toList.dropWhile isWsCh)

/-- Python `str.lower()` (ASCII). -/
def pyLower (s : String) : String := String.mk (s.toList.map Char.toLower)

def listStarts : List Char → List Char → Bool
  | [], _ => true
  | _ :: _, [] => false
  | n :: ns, h :: hs => n = h && listStarts ns hs

def listContainsGo (needle : List Char) : List Char → Bool
  | [] => listStarts needle []
  | c :: hs => listStarts needle (c :: hs) || listContainsGo needle hs

/-- Python `needle in hay` for strings. -/
def strContains (hay needle : String) : Bool := listContainsGo needle.toList hay.toList

/-- Python `s.startswith(p)`. -/
def strStarts (s p : String) : Bool := listStarts p.toList s.toList

/-- Python `s.endswith(p)`. -/
def strEnds (s p : String) : Bool := listStarts p.toList.reverse s.toList.reverse

def countCharL (c : Char) : List Char → Nat
  | [] => 0
  | d :: rest => (if d = c then 1 else 0) + countCharL c rest

/-- Python `s.count(c)` for a single character. -/
def countChar (s : String) (c : Char) : Nat := countCharL c s.toList

def countWordsGo : List Char → Bool → Nat
  | [], _ => 0
  | c :: rest, inWord =>
    if isWsCh c then countWordsGo rest false
    else (if inWord then 0 else 1) + countWordsGo rest true

/-- Python `len(s.split())`: number of maximal non-whitespace runs. -/
def wordsCount (s : String) : Nat := countWordsGo s.toList false

/-- Python `s.isupper()`: at least one cased character and no lowercase one. -/
def pyIsUpper (s : String) : Bool :=
  s.toList.any isCasedCh && s.toList.all (fun c => !isLowerCh c)

/-- Python `s.isspace()`: non-empty and all whitespace. -/
def pyIsSpaceStr (s : String) : Bool := !s.toList.isEmpty && s.toList.all isWsCh

/-- Python `s[:n]`. -/
def strTake (s : String) (n : Nat) : String := String.mk (s.toList.take n)

def takeDigits (l : List Char) : List Char := l.takeWhile isDigitCh

/-! ### Line Normalizer: `clean_text`

Each `re.sub` of the source is reproduced with Python's non-overlapping
left-to-right scan: after a match is replaced, scanning resumes after the
replaced text. -/

/-- One `re.sub(p1 p2, "\1 \2")` pass for a two-character pattern. -/
def sub2 (p1 p2 : Char → Bool) : List Char → List Char
  | [] => []
  | [c] => [c]
  | c1 :: c2 :: rest =>
    if p1 c1 && p2 c2 then c1 :: ' ' :: c2 :: sub2 p1 p2 rest
    else c1 :: sub2 p1 p2 (c2 :: rest)

/-- Pass for `re.sub(r'([A-Z])([A-Z][a-z])', r'\1 \2')`. -/
def sub3CapsTitle : List Char → List Char
  | c1 :: c2 :: c3 :: rest =>
    if isUpperCh c1 && isUpperCh c2 && isLowerCh c3 then
      c1 :: ' ' :: c2 :: c3 :: sub3CapsTitle rest
    else c1 :: sub3CapsTitle (c2 :: c3 :: rest)
  | l => l

/-- Pass for `re.sub(r'([X])sep([Y])', r'\1sep \2')` for `sep` one of `:`/`,`. -/
def sub3Sep (sep : Char) (p1 p3 : Char → Bool) : List Char → List Char
  | c1 :: c2 :: c3 :: rest =>
    if p1 c1 && c2 = sep && p3 c3 then
      c1 :: c2 :: ' ' :: c3 :: sub3Sep sep p1 p3 rest
    else c1 :: sub3Sep sep p1 p3 (c2 :: c3 :: rest)
  | l => l

/-- Pass for `re.sub(r'\s+', ' ')`. -/
def collapseWs : List Char → List Char
  | [] => []
  | [c] => [if isWsCh c then ' ' else c]
  | c :: d :: rest =>
    if isWsCh c && isWsCh d then collapseWs (d :: rest)
    else (if isWsCh c then ' ' else c) :: collapseWs (d :: rest)

/-- The `clean_text` of the source: spacing repairs, bullet/punctuation fixes,
whitespace collapse, final strip. -/
def clean_text (s : String) : String :=
  if s = "" then s
  else
    let l1 := sub2 isLowerCh isUpperCh s.toList
    let l2 := sub3CapsTitle l1
    let l3 := sub2 isLetterCh isDigitCh l2
    let l4 := sub2 isDigitCh isLetterCh l3
    let l5 := sub2 (fun c => c = '•') isLetterCh l4
    let l6 := sub2 isLowerCh (fun c => c = '•') l5
    let l7 := sub3Sep ':' isLetterCh isLetterCh l6
    let l8 := sub3Sep ',' isLetterCh isLetterCh l7
    String.mk (stripList (collapseWs l8))

/-! ### Date / month / number recognizer: `is_date_or_month_or_number`

The source's regular expressions are anchored on both sides
(`re.fullmatch`, or `re.match` with a final `$`), so each one is
reproduced as a total-match recognizer.  The digit-run patterns
(`\d{1,2}`, `\d{4}`, `\d{2,4}`) are deterministic against maximal digit
runs because the character following them in each pattern can never be a
digit. -/

def fullMonths : List String :=
  ["january", "february", "march", "april", "may", "june", "july",
   "august", "september", "october", "november", "december"]

def abbrMonths : List String :=
  ["jan", "feb", "mar", "apr", "may", "jun", "jul", "aug", "sep", "oct", "nov", "dec"]

/-- The `MONTHS` of the source: lowercased calendar month names and abbreviations. -/
def monthsSet : List String := fullMonths ++ abbrMonths

/-- Fullmatch of `[\d.,/\-]+`. -/
def isDigitsPunctCh (c : Char) : Bool :=
  isDigitCh c || c = '.' || c = ',' || c = '/' || c = '-'

def onlyDigitsPunct (t : String) : Bool :=
  !t.toList.isEmpty && t.toList.all isDigitsPunctCh

def isSepCh (c : Char) : Bool := c = '/' || c = '-'

/-- Fullmatch of the numeric date pattern: one or two digits, a slash or
dash separator, one or two digits, optionally another separator and two to
four digits. -/
def numDateMatch (l : List Char) : Bool :=
  let d1 := takeDigits l
  (d1.length = 1 || d1.length = 2) &&
  (match l.drop d1.length with
   | [] => false
   | s1 :: r1 =>
     isSepCh s1 &&
     (let d2 := takeDigits r1
      (d2.length = 1 || d2.length = 2) &&
      (match r1.drop d2.length with
       | [] => true
       | s2 :: r3 =>
         isSepCh s2 && decide (2 ≤ r3.length) && decide (r3.length ≤ 4) &&
         r3.all isDigitCh)))

/-- Fullmatch of `\d{4}`. -/
def year4Match (l : List Char) : Bool := l.length = 4 && l.all isDigitCh

/-- Matches `\s+\d{1,2},?\s+\d{4}$` (the day-and-year tail of the
"Month DD, YYYY" patterns). -/
def parseDayYear (l : List Char) : Bool :=
  let l1 := l.dropWhile isWsCh
  decide (l1.length < l.length) &&
  (let d := takeDigits l1
   (d.length = 1 || d.length = 2) &&
   (let r := l1.drop d.length
    let r2 := match r with
      | ',' :: rr => rr
      | _ => r
    let r3 := r2.dropWhile isWsCh
    decide (r3.length < r2.length) && r3.length = 4 && r3.all isDigitCh))

/-- Matches `\s+\d{4}$` (the year tail of the "Month YYYY" patterns). -/
def parseYearOnly (l : List Char) : Bool :=
  let l1 := l.dropWhile isWsCh
  decide (l1.length < l.length) && l1.length = 4 && l1.all isDigitCh

/-- One anchored month-date alternation: some month name is a prefix and the
tail matches the day/year pattern. -/
def monthDateMatch (months : List String) (l : List Char) (withDay : Bool) : Bool :=
  months.any (fun m =>
    listStarts m.toList l &&
    (if withDay then parseDayYear (l.drop m.length) else parseYearOnly (l.drop m.length)))

/-- The `is_date_or_month_or_number` of the source. -/
def is_date_or_month_or_number (text : String) : Bool :=
  let t := pyLower (pyStrip text)
  let l := t.toList
  onlyDigitsPunct t ||
  monthsSet.contains t ||
  numDateMatch l ||
  year4Match l ||
  monthDateMatch fullMonths l true ||
  monthDateMatch fullMonths l false ||
  monthDateMatch abbrMonths l true ||
  monthDateMatch abbrMonths l false

/-! ### Phase 1 extraction: `extract_all_text_with_font_tags`

The pdfminer page/box/line traversal is external I/O; the pipeline is
embedded from the per-line level down.  A `LineInput` is one
`LTTextLineHorizontal` together with its page geometry; a `Glyph` is one
`LTChar` (its text, font name and size). -/

structure Glyph where
  gtext : String
  fontname : Option String
  size : Q
deriving DecidableEq, Repr

structure LineInput where
  glyphs : List Glyph
  page : Nat
  y0 : Q
  x0 : Q
  x1 : Q
  page_width : Q
  page_height : Q
deriving DecidableEq, Repr

/-- The per-line record appended to `all_text` by the source. -/
structure RawLine where
  text : String
  font_size : Option Q
  font_name : Option String
  page : Nat
  y0 : Q
  x0 : Q
  x1 : Q
  page_width : Q
  page_height : Q
deriving DecidableEq, Repr

/-- Bold marker detection used for the `+1` size bump (`'Bold'`, `'bold'`,
`'Heavy'`, `'Black'` as case-sensitive substrings, guarded by truthiness). -/
def boldSizeBump (fn : Option String) : Bool :=
  match fn with
  | none => false
  | some f =>
    f != "" && (strContains f "Bold" || strContains f "bold" ||
                strContains f "Heavy" || strContains f "Black")

def lineTextParts (li : LineInput) : List String := li.glyphs.map (fun g => g.gtext)

def lineFontNames (li : LineInput) : List (Option String) :=
  li.glyphs.map (fun g => g.fontname)

def lineFontSizes (li : LineInput) : List Q :=
  li.glyphs.map (fun g => if boldSizeBump g.fontname then g.size + 1 else g.size)

/-- The cleaned line text: glyph texts joined, stripped, then `clean_text`. -/
def lineCleanText (li : LineInput) : String :=
  clean_text (pyStrip (String.join (lineTextParts li)))

/-- Python `text.index(':')` (only used when `':' in text`). -/
def idxOfColon : List Char → Nat
  | [] => 0
  | c :: rest => if c = ':' then 0 else 1 + idxOfColon rest

/-- The glyph index whose cumulative text length first exceeds the colon's
character index in the cleaned text (the source's `split_index` loop). -/
def findSplitGo : List String → Nat → Nat → Nat → Option Nat
  | [], _, _, _ => none
  | p :: ps, colonIdx, cnt, idx =>
    if cnt + p.length > colonIdx then some idx
    else findSplitGo ps colonIdx (cnt + p.length) (idx + 1)

def findSplitIdx (parts : List String) (colonIdx : Nat) : Option Nat :=
  findSplitGo parts colonIdx 0 0

/-- The colon-splitting rule: possibly truncated `(text, font_names,
font_sizes)`.  As in the source, the colon index is computed on the
*cleaned* text while the glyph lists are untouched by cleaning. -/
def colonSplit (li : LineInput) : String × List (Option String) × List Q :=
  let text1 := lineCleanText li
  let names := lineFontNames li
  let sizes := lineFontSizes li
  if strContains text1 ":" then
    let colonIdx := idxOfColon text1.toList
    match findSplitIdx (lineTextParts li) colonIdx with
    | none => (text1, names, sizes)
    | some si =>
      let ai := (si + 1) + (((lineTextParts li).drop (si + 1)).takeWhile pyIsSpaceStr).length
      if ai < names.length then
        let fb := names.getD si none
        let fa := names.getD ai none
        let sb := sizes.getD si 0
        let sa := sizes.getD ai 0
        if fb ≠ fa || (1 : Q)/2 < qAbs (sb - sa) then
          (strTake text1 colonIdx, names.take (si + 1), sizes.take (si + 1))
        else (text1, names, sizes)
      else (text1, names, sizes)
  else (text1, names, sizes)

/-- First-insertion-order distinct elements (Python `Counter` key order). -/
def distinctFO {α : Type} [DecidableEq α] (l : List α) : List α :=
  l.foldl (fun ks x => if ks.contains x then ks else ks ++ [x]) []

def countIn {α : Type} [DecidableEq α] (l : List α) (x : α) : Nat :=
  (l.filter (fun y => y == x)).length

/-- First element attaining the maximal key (Python `max` ties). -/
def firstMaxByNat {α : Type} (key : α → Nat) (a : α) (l : List α) : α :=
  l.foldl (fun best x => if key best < key x then x else best) a

/-- Python `Counter(font_names).most_common(1)[0][0]`: ties are broken by first
insertion order, as in Python. -/
def mostCommonFont (l : List (Option String)) : Option String :=
  match distinctFO l with
  | [] => none
  | k :: ks => firstMaxByNat (countIn l) k ks

/-- Per-line body of `extract_all_text_with_font_tags`: `none` when the
cleaned text is empty (the `continue` guard, which runs *before* the
colon-splitting rule). -/
def processLine (li : LineInput) : Option RawLine :=
  if lineCleanText li = "" then none
  else
    let res := colonSplit li
    let sizesF := res.2.2
    let fsAvg : Option Q :=
      if sizesF.isEmpty then none
      else some (sizesF.foldl (fun a b => a + b) 0 / (⟨Int.ofNat sizesF.length, 1⟩ : Q))
    let fnMost : Option String := if sizesF.isEmpty then none else mostCommonFont res.2.1
    some { text := res.1, font_size := fsAvg, font_name := fnMost,
           page := li.page, y0 := li.y0, x0 := li.x0, x1 := li.x1,
           page_width := li.page_width, page_height := li.page_height }

/-- The `extract_all_text_with_font_tags` map over the stream of line inputs. -/
def extract_all_text_with_font_tags (inputs : List LineInput) : List RawLine :=
  inputs.filterMap processLine

/-! ### Font Hierarchy Tagger: `tag_by_font_hierarchy` -/

/-- A hierarchy level: the string `"H<k>"`, or the sentinel `"H_body"`. -/
inductive Level where
  | body
  | h (k : Nat)
deriving DecidableEq, Repr

structure TaggedLine extends RawLine where
  level : Level
deriving DecidableEq, Repr

/-- The clustering tolerance (`0.1` points). -/
def tolQ : Q := ⟨1, 10⟩

/-- Order-dependent cluster seeding: a size joins the first existing cluster
within tolerance, else starts a new cluster. -/
def clusterFold (sizes : List Q) : List Q :=
  sizes.foldl (fun gs s => if gs.any (fun g => qAbs (s - g) ≤ tolQ) then gs else gs ++ [s]) []

def sortDescInsert (x : Q) : List Q → List Q
  | [] => [x]
  | y :: ys => if y ≤ x then x :: y :: ys else y :: sortDescInsert x ys

/-- Python `sorted(grouped_sizes, reverse=True)`. -/
def sortDescQ : List Q → List Q
  | [] => []
  | x :: xs => sortDescInsert x (sortDescQ xs)

/-- The closest-cluster search: index of the cluster within tolerance with
strictly smallest difference (earlier index wins ties, as in the source's
`diff < min_diff`). -/
def closestGo (s : Q) : List Q → Nat → Option (Nat × Q) → Option Nat
  | [], _, best => best.map (fun p => p.1)
  | u :: us, i, best =>
    let diff := qAbs (s - u)
    let better := diff ≤ tolQ &&
      (match best with
       | none => true
       | some p => diff < p.2)
    closestGo s us (i + 1) (if better then some (i, diff) else best)

/-- Level assignment for one line from the sorted cluster list. -/
def assignLevel (fs : Option Q) (uniq : List Q) : Level :=
  match fs with
  | none => Level.body
  | some s =>
    if s.num != 0 then
      match closestGo s uniq 0 none with
      | some i => Level.h (i + 1)
      | none => Level.body
    else Level.body

/-- The `tag_by_font_hierarchy` of the source. -/
def tag_by_font_hierarchy (all_text : List RawLine) : List TaggedLine :=
  if all_text.isEmpty then []
  else
    let sizes := all_text.filterMap (fun it =>
      match it.font_size with
      | some s => if s.num != 0 then some s else none
      | none => none)
    let uniq := sortDescQ (clusterFold sizes)
    all_text.map (fun it => { toRawLine := it, level := assignLevel it.font_size uniq })

/-! ### Heading Classifier: `is_actual_heading` -/

def bracketEnclosed (t : String) : Bool :=
  (strStarts t "(" && strEnds t ")") ||
  (strStarts t "[" && strEnds t "]") ||
  (strStarts t "\x7b" && strEnds t "\x7d")

/-- The first non-space character is lowercase. -/
def startsLowerAfterLstrip (t : String) : Bool :=
  match (pyLstrip t).toList with
  | [] => false
  | c :: _ => isLowerCh c

/-- The "looks like a full sentence" rejection: length over 20, contains a
comma, and more than five *space characters* (`t.count(' ') > 5`). -/
def sentenceLike (t : String) : Bool :=
  decide (t.length > 20) && strContains t "," && decide (countChar t ' ' > 5)

/-- The bold-font accept: any of `'bold'`, `'b'`, `'heavy'`, `'black'` as a
case-insensitive substring of a truthy font name.  Note the single-letter
`'b'`: any font name containing a `b` counts as bold. -/
def boldFontIndicator (fn : Option String) : Bool :=
  match fn with
  | none => false
  | some f =>
    f != "" && (strContains (pyLower f) "bold" || strContains (pyLower f) "b" ||
                strContains (pyLower f) "heavy" || strContains (pyLower f) "black")

/-- Rule 10: `x0` within 30% of page width from the horizontal center. -/
def isCentered (x0 pw : Option Q) : Bool :=
  match x0, pw with
  | some x, some w => decide (qAbs (x - w / 2) < w * (⟨3, 10⟩ : Q))
  | _, _ => false

/-- Rule 11: `y0` in the top 30% of the page. -/
def isTopOfPage (y0 ph : Option Q) : Bool :=
  match y0, ph with
  | some y, some hh => decide (hh * (⟨7, 10⟩ : Q) < y)
  | _, _ => false

/-- Fullmatch of `\d+\.`: digits then a period. -/
def numPeriodOnly (t : String) : Bool :=
  let l := t.toList
  let d := takeDigits l
  !d.isEmpty && l.drop d.length = ['.']

/-- Fullmatch of one-or-more characters that are neither word characters nor
whitespace. -/
def punctOnly (t : String) : Bool :=
  !t.toList.isEmpty && t.toList.all (fun c => !isWordCh c && !isWsCh c)

def nonHeadingWords : List String :=
  ["page", "continued", "footnote", "reference", "appendix", "index", "glossary"]

/-- Match of `page\s+\d+` anchored on both sides, on the lowered text. -/
def pageNumPattern (t : String) : Bool :=
  let l := t.toList
  listStarts "page".toList l &&
  (let r := l.drop 4
   let r1 := r.dropWhile isWsCh
   decide (r1.length < r.length) && !r1.isEmpty && r1.all isDigitCh)

/-- The `re.search` of the URL/email alternation. -/
def urlOrEmail (t : String) : Bool :=
  strContains t "http://" || strContains t "https://" ||
  strContains t "www." || strContains t "@"

/-- The `is_actual_heading` of the source: the ordered decision list, first
matching rule wins. -/
def is_actual_heading (text : String) (level : Level)
    (x0 y0 page_width page_height : Option Q) (font_name : Option String) : Bool :=
  let t := pyStrip text
  if bracketEnclosed t then false
  else if startsLowerAfterLstrip t then false
  else if level = Level.body then false
  else if sentenceLike t then false
  else if pyIsUpper t && decide (t.length > 2) then true
  else if boldFontIndicator font_name then true
  else if onlyDigitsPunct t then false
  else if is_date_or_month_or_number t then false
  else if isCentered x0 page_width then true
  else if isTopOfPage y0 page_height then true
  else if decide (wordsCount t > 10) then false
  else if decide (t.length < 2) then false
  else if decide (t.length > 100) then false
  else if numPeriodOnly t then false
  else if punctOnly t then false
  else if nonHeadingWords.contains (pyLower t) then false
  else if pageNumPattern (pyLower t) then false
  else if strContains (pyLower t) "copyright" || strContains t "©" then false
  else if urlOrEmail t then false
  else true

/-! ### Classified headings and deduplication -/

/-- The heading record built by `process_pdf` for a line that passes the
classifier (note: no `page_width`/`page_height` fields — later `get` calls
on them yield `None`). -/
structure Heading where
  level : Level
  text : String
  page : Nat
  y0 : Q
  x0 : Q
  font_name : Option String
  font_size : Option Q
deriving DecidableEq, Repr

def isHeadingTag : Level → Bool
  | Level.h _ => true
  | Level.body => false

/-- The per-line filter of `process_pdf` phase 2: keep tagged lines whose
level is a heading level and which pass the classifier. -/
def classifyLine (it : TaggedLine) : Option Heading :=
  if isHeadingTag it.level &&
     is_actual_heading it.text it.level (some it.x0) (some it.y0)
       (some it.page_width) (some it.page_height) it.font_name
  then some { level := it.level, text := pyStrip it.text, page := it.page,
              y0 := it.y0, x0 := it.x0, font_name := it.font_name,
              font_size := it.font_size }
  else none

def classifiedHeadings (tagged : List TaggedLine) : List Heading :=
  tagged.filterMap classifyLine

def dedupGo (seen : List (String × Level)) : List Heading → List Heading
  | [] => []
  | x :: xs =>
    let key := (pyLower (pyStrip x.text), x.level)
    if seen.contains key then dedupGo seen xs
    else x :: dedupGo (key :: seen) xs

/-- The `remove_duplicate_headings` of the source: first `(lowered stripped
text, level)` occurrence wins. -/
def remove_duplicate_headings (l : List Heading) : List Heading := dedupGo [] l

/-! ### Vertical Grouper: `group_vertical_headings`

The source's nested while-loops make one linear pass over the sorted
list: an anchor heading absorbs subsequent headings while the conditions
hold (all distances are measured against the *anchor's* `y0`, which the
source never updates inside the inner loop), and the first heading that
fails the conditions becomes the next anchor.  `groupFold` is that pass
written as structural recursion. -/

/-- The grouped record: merged groups drop the `x0` key (so later
`get('x0')` calls yield `None`), single headings keep theirs. -/
structure GHeading where
  level : Level
  text : String
  page : Nat
  y0 : Q
  x0 : Option Q
  font_name : Option String
  font_size : Option Q
deriving DecidableEq, Repr

/-- Python truthiness of a possibly-missing string. -/
def strTruthy : Option String → Bool
  | none => false
  | some s => s != ""

/-- Python `font.split('-')[0]`. -/
def baseFontName (s : String) : String :=
  String.mk (s.toList.takeWhile (fun c => c ≠ '-'))

/-- Font similarity: exact match or equal base names when both truthy, and
vacuously similar when both falsy. -/
def fontSimilar (a b : Option String) : Bool :=
  if strTruthy a && strTruthy b then
    (a == b) || (baseFontName (a.getD "") == baseFontName (b.getD ""))
  else if !strTruthy a && !strTruthy b then true
  else false

/-- Size similarity: within half a point when both truthy, vacuously similar
when both falsy. -/
def sizeSimilar (a b : Option Q) : Bool :=
  if qTruthy a && qTruthy b then decide (qAbs (a.getD 0 - b.getD 0) ≤ ⟨1, 2⟩)
  else if !qTruthy a && !qTruthy b then true
  else false

/-- Whether the next heading is absorbed into the current group:
same page, similar font and size, and within 50 points of the *anchor*
(or 80 points once the group already has at least two members). -/
def absorbable (anchor : Heading) (absorbedCount : Nat) (nh : Heading) : Bool :=
  (nh.page == anchor.page) &&
  fontSimilar anchor.font_name nh.font_name &&
  sizeSimilar anchor.font_size nh.font_size &&
  (decide (qAbs (anchor.y0 - nh.y0) ≤ 50) ||
   (decide (1 ≤ absorbedCount) && decide (qAbs (anchor.y0 - nh.y0) ≤ 80)))

/-- A single heading kept as-is (the original dict, so `x0` survives and the
text is not re-stripped). -/
def singleGHeading (a : Heading) : GHeading :=
  { level := a.level, text := a.text, page := a.page, y0 := a.y0,
    x0 := some a.x0, font_name := a.font_name, font_size := a.font_size }

def maxQList (x : Q) (l : List Q) : Q :=
  l.foldl (fun m y => if m < y then y else m) x

/-- Majority level of a group (Python `max` over a dict built in member
order: ties go to the first-encountered level). -/
def majorityLevel (first : Level) (rest : List Level) : Level :=
  match distinctFO (first :: rest) with
  | [] => first
  | k :: ks => firstMaxByNat (countIn (first :: rest)) k ks

/-- The combined heading for a group of two or more members: space-joined
stripped texts, topmost `y0`, majority level, anchor's font name and size,
no `x0`. -/
def mergedGHeading (a : Heading) (ms : List Heading) : GHeading :=
  { level := majorityLevel a.level (ms.map (fun h => h.level)),
    text := String.intercalate " " (pyStrip a.text :: ms.map (fun h => pyStrip h.text)),
    page := a.page,
    y0 := maxQList a.y0 (ms.map (fun h => h.y0)),
    x0 := none,
    font_name := a.font_name,
    font_size := a.font_size }

def closeGroup (a : Heading) (ms : List Heading) : GHeading :=
  match ms with
  | [] => singleGHeading a
  | _ :: _ => mergedGHeading a ms

/-- The grouping pass: `a` is the current anchor, `ms` the members absorbed
after it so far. -/
def groupFold (a : Heading) (ms : List Heading) : List Heading → List GHeading
  | [] => [closeGroup a ms]
  | nh :: rest =>
    if absorbable a ms.length nh then groupFold a (ms ++ [nh]) rest
    else closeGroup a ms :: groupFold nh [] rest

/-- Sort key: page ascending, then `y0` descending; the insertion sort is
stable like Python's `sorted`. -/
def hKeyLE (a b : Heading) : Bool :=
  decide (a.page < b.page) || ((a.page == b.page) && decide (b.y0 ≤ a.y0))

def sortInsertH (x : Heading) : List Heading → List Heading
  | [] => [x]
  | y :: ys => if hKeyLE x y then x :: y :: ys else y :: sortInsertH x ys

def sortHeadings : List Heading → List Heading
  | [] => []
  | x :: xs => sortInsertH x (sortHeadings xs)

/-- The `group_vertical_headings` of the source. -/
def group_vertical_headings (headings : List Heading) : List GHeading :=
  match sortHeadings headings with
  | [] => []
  | c :: rest => groupFold c [] rest

/-- The member segments of the grouping pass (same recursion as
`groupFold`, returning the groups' member lists instead of the merged
records). -/
def groupSegsFold (a : Heading) (ms : List Heading) : List Heading → List (List Heading)
  | [] => [a :: ms]
  | nh :: rest =>
    if absorbable a ms.length nh then groupSegsFold a (ms ++ [nh]) rest
    else (a :: ms) :: groupSegsFold nh [] rest

def groupSegs (headings : List Heading) : List (List Heading) :=
  match sortHeadings headings with
  | [] => []
  | c :: rest => groupSegsFold c [] rest

/-- The grouped record produced from one member segment. -/
def mkGroupRec : List Heading → GHeading
  | [] => { level := Level.body, text := "", page := 0, y0 := 0, x0 := none,
            font_name := none, font_size := none }
  | a :: ms => closeGroup a ms

/-! ### Level Breakpoint Filter -/

/-- Occurrences of level `H_k` among *all* tagged lines. -/
def countLevel (tagged : List TaggedLine) (k : Nat) : Nat :=
  (tagged.filter (fun it => it.level == Level.h k)).length

/-- The source's `for i in range(1, 100)` scan: first level index (from `s`,
for `n` steps) whose count exceeds 14. -/
def scanGo (tagged : List TaggedLine) : Nat → Nat → Option Nat
  | _, 0 => none
  | s, n + 1 => if countLevel tagged s > 14 then some s else scanGo tagged (s + 1) n

/-- The breakpoint level: first of `H1..H99` with more than 14 tagged
lines. -/
def breakpointOf (tagged : List TaggedLine) : Option Nat := scanGo tagged 1 99

/-- Whether any tagged line carries a heading level (truthiness of the
`all_heading_counts` dict). -/
def anyHLevel (tagged : List TaggedLine) : Bool :=
  tagged.any (fun it => isHeadingTag it.level)

/-- The deepest observed heading level among tagged lines. -/
def maxObservedLevel (tagged : List TaggedLine) : Nat :=
  tagged.foldl (fun m it =>
    match it.level with
    | Level.h k => max m k
    | Level.body => m) 0

/-- Python `int(level[1:])` — only heading levels reach this in the source
(`int('_body')` would raise). -/
def levelIdx : Level → Nat
  | Level.h k => k
  | Level.body => 0

/-- The `breakpoint_index == 1` special case: keep only H1 groups that pass
the classifier again (grouped records have no page geometry, so
`page_width`/`page_height` are `None` here). -/
def keepReclassH1 : List GHeading → List GHeading
  | [] => []
  | g :: rest =>
    if (g.level == Level.h 1) &&
       is_actual_heading g.text g.level g.x0 (some g.y0) none none g.font_name
    then g :: keepReclassH1 rest
    else keepReclassH1 rest

/-- Keep grouped headings with level index below the breakpoint and at most
6 (`max_heading_level`). -/
def keepBelowCap (k : Nat) : List GHeading → List GHeading
  | [] => []
  | g :: rest =>
    if decide (levelIdx g.level < k) && decide (levelIdx g.level ≤ 6)
    then g :: keepBelowCap k rest
    else keepBelowCap k rest

/-- No-breakpoint branch: keep grouped headings strictly below the deepest
observed level and at most 6. -/
def keepBelowMax (maxL : Nat) : List GHeading → List GHeading
  | [] => []
  | g :: rest =>
    if decide (levelIdx g.level < maxL) && decide (levelIdx g.level ≤ 6)
    then g :: keepBelowMax maxL rest
    else keepBelowMax maxL rest

/-- The breakpoint filter of `process_pdf` (lines 605–654 of the source). -/
def filterByBreakpoint (tagged : List TaggedLine) (grouped : List GHeading) : List GHeading :=
  match breakpointOf tagged with
  | some k => if k = 1 then keepReclassH1 grouped else keepBelowCap k grouped
  | none => if anyHLevel tagged then keepBelowMax (maxObservedLevel tagged) grouped else []

/-! ### Title resolution and assembly -/

/-- The persisted outline entry: exactly `level`, `text`, `page`. -/
structure OutlineEntry where
  level : Level
  text : String
  page : Nat
deriving DecidableEq, Repr

structure DocumentResult where
  title : String
  outline : List OutlineEntry
deriving DecidableEq, Repr

/-- Candidates for the title on page `p` among the grouped headings:
non-body level and truthy font size. -/
def titleHeadingPool (grouped : List GHeading) (p : Nat) : List GHeading :=
  grouped.filter (fun h => (h.page == p) && !(h.level == Level.body) && qTruthy h.font_size)

/-- Fallback candidates on page `p`: all tagged lines with truthy font
size. -/
def titleLinePool (tagged : List TaggedLine) (p : Nat) : List TaggedLine :=
  tagged.filter (fun l => (l.page == p) && qTruthy l.font_size)

/-- Python `max(pool, key=...)`: first element attaining the maximum. -/
def firstMaxByQ {α : Type} (key : α → Q) (a : α) (l : List α) : α :=
  l.foldl (fun best x => if key best < key x then x else best) a

def gKey (h : GHeading) : Q := h.font_size.getD 0

def tKey (l : TaggedLine) : Q := l.font_size.getD 0

/-- The metadata-less fallback chain: largest grouped heading on page 1 then
2, else largest tagged line on page 1 then 2, else `"Untitled"`. -/
def resolveTitleNoMeta (grouped : List GHeading) (tagged : List TaggedLine) : String :=
  match titleHeadingPool grouped 1 with
  | g :: gs => (firstMaxByQ gKey g gs).text
  | [] =>
    match titleHeadingPool grouped 2 with
    | g :: gs => (firstMaxByQ gKey g gs).text
    | [] =>
      match titleLinePool tagged 1 with
      | l :: ls => (firstMaxByQ tKey l ls).text
      | [] =>
        match titleLinePool tagged 2 with
        | l :: ls => (firstMaxByQ tKey l ls).text
        | [] => "Untitled"

/-- Python falsiness of the metadata title (`None` or the empty string). -/
def mdFalsy : Option String → Bool
  | none => true
  | some t => t == ""

/-- Title resolution of `process_pdf`: a truthy metadata title is used
verbatim, otherwise the fallback chain runs. -/
def resolveTitle (metadata_title : Option String)
    (grouped : List GHeading) (tagged : List TaggedLine) : String :=
  match metadata_title with
  | some t => if t != "" then t else resolveTitleNoMeta grouped tagged
  | none => resolveTitleNoMeta grouped tagged

/-- Field stripping for output: keep exactly `level`, `text`, `page`. -/
def stripFields (g : GHeading) : OutlineEntry :=
  { level := g.level, text := g.text, page := g.page }

def pipelineTagged (inputs : List LineInput) : List TaggedLine :=
  tag_by_font_hierarchy (extract_all_text_with_font_tags inputs)

def pipelineGrouped (inputs : List LineInput) : List GHeading :=
  group_vertical_headings (remove_duplicate_headings (classifiedHeadings (pipelineTagged inputs)))

def pipelineFiltered (inputs : List LineInput) : List GHeading :=
  filterByBreakpoint (pipelineTagged inputs) (pipelineGrouped inputs)

/-- The pure core of `process_pdf`: everything between reading the line
stream and writing the JSON file. -/
def processPdfPure (metadata_title : Option String) (inputs : List LineInput) : DocumentResult :=
  { title := resolveTitle metadata_title (pipelineGrouped inputs) (pipelineTagged inputs),
    outline := (pipelineFiltered inputs).map stripFields }

/-! ### Concrete documents used as counterexamples and witnesses -/

/-- A line whose glyphs all share one font and size. -/
def mkGlyphs (s : String) (fn : String) (sz : Q) : List Glyph :=
  s.toList.map (fun c => { gtext := String.mk [c], fontname := some fn, size := sz })

def mkLine (s : String) (fn : String) (sz : Q) (page : Nat) (y0 x0 : Q) : LineInput :=
  { glyphs := mkGlyphs s fn sz, page := page, y0 := y0, x0 := x0, x1 := x0 + 100,
    page_width := 612, page_height := 792 }

/-- Seven one-word lines at seven distinct sizes: no level exceeds the
breakpoint threshold, the deepest observed level is H7. -/
def exSevenLevels : List LineInput :=
  [mkLine "AAA" "Times" 70 1 700 50,
   mkLine "BBB" "Times" 60 1 650 50,
   mkLine "CCC" "Times" 50 1 600 50,
   mkLine "DDD" "Times" 40 1 550 50,
   mkLine "EEE" "Times" 30 1 500 50,
   mkLine "FFF" "Times" 20 1 450 50,
   mkLine "GGG" "Times" 10 1 400 50]

/-- Three same-font same-size headings on one page at `y0` 100, 55, 10:
consecutive gaps are 45 and 45, but the third line is 90 points from the
run's first line. -/
def exRunA : Heading :=
  { level := Level.h 1, text := "L one", page := 1, y0 := 100, x0 := 10,
    font_name := some "F", font_size := some 12 }

def exRunB : Heading := { exRunA with text := "L two", y0 := 55 }

def exRunC : Heading := { exRunA with text := "L three", y0 := 10 }

/-- Three same-font same-size headings all within 50 points of the first. -/
def exPackA : Heading :=
  { level := Level.h 1, text := "W one", page := 1, y0 := 100, x0 := 10,
    font_name := some "F", font_size := some 12 }

def exPackB : Heading := { exPackA with text := "W two", y0 := 70 }

def exPackC : Heading := { exPackA with text := "W three", y0 := 55 }

/-- A line reading ": A" whose glyph after the colon has a different font:
the colon-splitting rule truncates it to the empty string. -/
def exColonLine : LineInput :=
  { glyphs := [{ gtext := ":", fontname := some "F", size := 10 },
               { gtext := " ", fontname := some "F", size := 10 },
               { gtext := "A", fontname := some "G", size := 10 }],
    page := 1, y0 := 100, x0 := 10, x1 := 20, page_width := 612, page_height := 792 }

/-- The record `processLine` emits for `exColonLine`. -/
def exColonRec : RawLine :=
  { text := "", font_size := some ⟨10, 1⟩, font_name := some "F", page := 1,
    y0 := ⟨100, 1⟩, x0 := ⟨10, 1⟩, x1 := ⟨20, 1⟩,
    page_width := ⟨612, 1⟩, page_height := ⟨792, 1⟩ }

/-- Page 1 has a bracket-enclosed line at the largest font (rejected by the
classifier) and an all-caps line at a smaller font (accepted). -/
def exDraftDoc : List LineInput :=
  [mkLine "(Draft)" "Times" 30 1 700 50,
   mkLine "HELLO WORLD" "Times" 20 1 400 50]

/-- A six-word comma sentence longer than 20 characters. -/
def exSixWords : String := "Abcd efgh, ijkl mnop qrst uvwx"

/-- A tagged line at level H100. -/
def exH100Line : TaggedLine :=
  { toRawLine := { text := "x", font_size := some 5, font_name := some "F", page := 1,
                   y0 := 0, x0 := 0, x1 := 0, page_width := 0, page_height := 0 },
    level := Level.h 100 }

/-- Fifteen tagged lines at level H100: that level's count exceeds the
threshold but the scan stops at H99. -/
def exH100Doc : List TaggedLine := List.replicate 15 exH100Line

/-- Fifteen tagged lines at level H2: the breakpoint scan finds H2. -/
def exH2Doc : List TaggedLine :=
  List.replicate 15
    { toRawLine := { text := "y", font_size := some 6, font_name := some "F", page := 1,
                     y0 := 0, x0 := 0, x1 := 0, page_width := 0, page_height := 0 },
      level := Level.h 2 }

/-- The line "March 2003" in the font `Calibri` (whose lowercase form
contains the bold-indicator substring `b`) plus one smaller line. -/
def exMarchDoc : List LineInput :=
  [mkLine "March 2003" "Calibri" 20 1 700 50,
   mkLine "Other" "Times" 10 1 100 400]

/-- A document with one accepted heading and one rejected lowercase line. -/
def exTwoLineDoc : List LineInput :=
  [mkLine "AAA" "Times" 20 1 700 50,
   mkLine "bbb" "Times" 10 1 100 50]

/-- A grouped-heading list and tagged list for the no-breakpoint filter
witness. -/
def exFilterTagged : List TaggedLine :=
  [{ toRawLine := { text := "t", font_size := some 9, font_name := some "F", page := 1,
                    y0 := 0, x0 := 0, x1 := 0, page_width := 0, page_height := 0 },
     level := Level.h 1 }]

def exFilterGrouped : List GHeading :=
  [{ level := Level.h 1, text := "g one", page := 1, y0 := 0, x0 := some 0,
     font_name := some "F", font_size := some 9 },
   { level := Level.h 9, text := "g nine", page := 1, y0 := 0, x0 := some 0,
     font_name := some "F", font_size := some 9 }]

/-! ## Theorems -/

/-! ### Grouper structure lemmas -/

theorem groupSegsFold_join (l : List Heading) :
    ∀ (a : Heading) (ms : List Heading), (groupSegsFold a ms l).flatten = (a :: ms) ++ l := by
  induction l with
  | nil => intro a ms; simp [groupSegsFold]
  | cons nh rest ih =>
    intro a ms
    simp only [groupSegsFold]
    split
    · rw [ih]
      simp
    · simp only [List.flatten_cons, ih]
      simp

theorem groupFold_eq_map_segs (l : List Heading) :
    ∀ (a : Heading) (ms : List Heading),
      groupFold a ms l = (groupSegsFold a ms l).map mkGroupRec := by
  induction l with
  | nil => intro a ms; simp [groupFold, groupSegsFold, mkGroupRec]
  | cons nh rest ih =>
    intro a ms
    simp only [groupFold, groupSegsFold]
    split
    · exact ih a (ms ++ [nh])
    · simp [ih, mkGroupRec]

theorem groupSegsFold_ne_nil (l : List Heading) :
    ∀ (a : Heading) (ms : List Heading) (seg : List Heading),
      seg ∈ groupSegsFold a ms l → seg ≠ [] := by
  induction l with
  | nil =>
    intro a ms seg hmem
    simp [groupSegsFold] at hmem
    simp [hmem]
  | cons nh rest ih =>
    intro a ms seg hmem
    simp only [groupSegsFold] at hmem
    split at hmem
    · exact ih a (ms ++ [nh]) seg hmem
    · rcases List.mem_cons.mp hmem with h | h
      · simp [h]
      · exact ih nh [] seg h

/-- C10: the vertical grouper conserves its input.  After sorting by (page
ascending, `y0` descending), the grouper's output is exactly the per-segment
merge of a partition of the sorted list into consecutive non-empty member
segments: every heading lands in exactly one segment (none dropped, none
duplicated), output records appear in the reading order of their segments'
first members, and a merged record's text is the space-join of its members'
stripped texts in scan order. -/
theorem c10_group_conservation (hs : List Heading) :
    (groupSegs hs).flatten = sortHeadings hs ∧
    group_vertical_headings hs = (groupSegs hs).map mkGroupRec ∧
    (∀ seg ∈ groupSegs hs, seg ≠ []) ∧
    (∀ (a : Heading) (ms : List Heading), ms ≠ [] →
      (mkGroupRec (a :: ms)).text =
        String.intercalate " " ((a :: ms).map (fun h => pyStrip h.text))) := by
  refine ⟨?_, ?_, ?_, ?_⟩
  · unfold groupSegs
    cases hsort : sortHeadings hs with
    | nil => simp
    | cons c rest => simpa using groupSegsFold_join rest c []
  · unfold group_vertical_headings groupSegs
    cases hsort : sortHeadings hs with
    | nil => simp
    | cons c rest => exact groupFold_eq_map_segs rest c []
  · unfold groupSegs
    cases hsort : sortHeadings hs with
    | nil => simp
    | cons c rest => exact fun seg hmem => groupSegsFold_ne_nil rest c [] seg hmem
  · intro a ms hne
    cases ms with
    | nil => exact absurd rfl hne
    | cons m ms2 => simp [mkGroupRec, closeGroup, mergedGHeading]

/-- C10 witness: the conservation theorem applied to a concrete two-heading
run, together with the merged-text equation at a concrete group. -/
theorem c10_group_conservation_witness :
    (groupSegs [exPackA, exPackB]).flatten = sortHeadings [exPackA, exPackB] ∧
    (mkGroupRec [exPackA, exPackB]).text =
      String.intercalate " " ([exPackA, exPackB].map (fun h => pyStrip h.text)) := by
  refine ⟨(c10_group_conservation [exPackA, exPackB]).1, ?_⟩
  exact (c10_group_conservation [exPackA, exPackB]).2.2.2 exPackA [exPackB] (by decide)

/-! ### Absorb-all lemmas for the grouper -/

theorem fontSimilar_refl (f : Option String) : fontSimilar f f = true := by
  cases f with
  | none => rfl
  | some s =>
    by_cases hs : s = ""
    · simp [fontSimilar, strTruthy, hs]
    · simp [fontSimilar, strTruthy, hs]

theorem mkQ_zero (d : Int) : mkQ 0 d = ⟨0, 1⟩ := by
  unfold mkQ
  by_cases hd : d = 0
  · simp [hd]
  · have habs : (Int.ofNat (if d < 0 then -d else d).natAbs) = (if d < 0 then -d else d) := by
      rcases lt_or_ge d 0 with h | h
      · simp only [h, if_true]
        exact Int.natAbs_of_nonneg (by omega)
      · simp only [not_lt.mpr h, if_false]
        exact Int.natAbs_of_nonneg h
    have hne : (if d < 0 then -d else d) ≠ 0 := by
      rcases lt_or_ge d 0 with h | h
      · simp only [h, if_true]; omega
      · simp only [not_lt.mpr h, if_false]; omega
    simp only [hd, if_false, neg_zero, ite_self, Int.natAbs_zero, Nat.gcd_zero_left, habs]
    rw [Int.zero_ediv, Int.ediv_self hne]

theorem q_sub_self (v : Q) : v - v = (⟨0, 1⟩ : Q) := by
  show Q.sub v v = ⟨0, 1⟩
  unfold Q.sub
  have h1 : v.num * v.den - v.num * v.den = 0 := by ring
  rw [h1]
  exact mkQ_zero (v.den * v.den)

theorem sizeSimilar_refl (s : Option Q) : sizeSimilar s s = true := by
  cases s with
  | none => rfl
  | some v =>
    by_cases hv : v.num = 0
    · simp [sizeSimilar, qTruthy, hv]
    · have hle : qAbs (v - v) ≤ (⟨1, 2⟩ : Q) := by
        rw [q_sub_self]
        show Q.le (qAbs ⟨0, 1⟩) ⟨1, 2⟩
        unfold qAbs Q.le
        norm_num
      simp [sizeSimilar, qTruthy, hv, hle]

theorem groupFold_absorb_all (l : List Heading) :
    ∀ (a : Heading) (ms : List Heading),
      (∀ x ∈ l, x.page = a.page ∧ x.font_name = a.font_name ∧
        x.font_size = a.font_size ∧ qAbs (a.y0 - x.y0) ≤ 50) →
      groupFold a ms l = [closeGroup a (ms ++ l)] := by
  induction l with
  | nil => intro a ms _; simp [groupFold]
  | cons x rest ih =>
    intro a ms hall
    obtain ⟨hp, hf, hs, hy⟩ := hall x (List.mem_cons_self x rest)
    have habs : absorbable a ms.length x = true := by
      unfold absorbable
      rw [hf, hs, hp]
      simp [fontSimilar_refl, sizeSimilar_refl, hy]
    simp only [groupFold, habs]
    simp only [if_true]
    rw [ih a (ms ++ [x]) (fun z hz => hall z (List.mem_cons_of_mem x hz))]
    simp

/-- C2 (amended): the grouper measures vertical gaps against the run's
*first* line, not between consecutive lines.  For a run of two or more
further headings on the same page with font name and size identical to the
first line's and each within 50 points of the *first* line's `y0`, and
already in reading order, the grouper produces exactly one GroupedHeading
containing all of them in order: texts space-joined (stripped), topmost
`y0` kept. -/
theorem c2_group_anchor (c : Heading) (rest : List Heading)
    (hlen : 2 ≤ rest.length)
    (hsort : sortHeadings (c :: rest) = c :: rest)
    (hall : ∀ x ∈ rest, x.page = c.page ∧ x.font_name = c.font_name ∧
      x.font_size = c.font_size ∧ qAbs (c.y0 - x.y0) ≤ 50) :
    group_vertical_headings (c :: rest) = [mergedGHeading c rest] ∧
    (mergedGHeading c rest).text =
      String.intercalate " " ((c :: rest).map (fun h => pyStrip h.text)) ∧
    (mergedGHeading c rest).y0 = maxQList c.y0 (rest.map (fun h => h.y0)) := by
  refine ⟨?_, ?_, rfl⟩
  · unfold group_vertical_headings
    rw [hsort]
    show groupFold c [] rest = [mergedGHeading c rest]
    rw [groupFold_absorb_all rest c [] hall]
    cases rest with
    | nil => simp at hlen
    | cons m ms => simp [closeGroup]
  · simp [mergedGHeading]

/-- C2 witness: three concrete same-font lines at `y0` 100, 70, 55 (all
within 50 points of the first) merge into one group. -/
theorem c2_group_anchor_witness :
    group_vertical_headings [exPackA, exPackB, exPackC] =
      [mergedGHeading exPackA [exPackB, exPackC]] ∧
    (mergedGHeading exPackA [exPackB, exPackC]).text = "W one W two W three" := by
  have h := c2_group_anchor exPackA [exPackB, exPackC] (by decide) (by decide) (by decide)
  refine ⟨h.1, ?_⟩
  rw [h.2.1]
  decide

/-- C2 counterexample: three same-font same-size headings on one page at
`y0` 100, 55, 10 — every consecutive gap is 45 ≤ 50, yet the grouper
produces two records, because the third line is 90 points from the run's
first line. -/
theorem c2_consecutive_gaps_counterexample :
    qAbs (exRunA.y0 - exRunB.y0) ≤ 50 ∧ qAbs (exRunB.y0 - exRunC.y0) ≤ 50 ∧
    exRunA.font_name = exRunB.font_name ∧ exRunB.font_name = exRunC.font_name ∧
    exRunA.font_size = exRunB.font_size ∧ exRunB.font_size = exRunC.font_size ∧
    exRunA.page = 1 ∧ exRunB.page = 1 ∧ exRunC.page = 1 ∧
    (group_vertical_headings [exRunA, exRunB, exRunC]).length = 2 := by decide

/-! ### Breakpoint scan characterization -/

theorem scanGo_eq_some (tg : List TaggedLine) :
    ∀ (n s k : Nat), scanGo tg s n = some k ↔
      (s ≤ k ∧ k < s + n ∧ countLevel tg k > 14 ∧
       ∀ j, s ≤ j → j < k → countLevel tg j ≤ 14) := by
  intro n
  induction n with
  | zero =>
    intro s k
    simp only [scanGo]
    constructor
    · intro h; exact absurd h (by simp)
    · rintro ⟨h1, h2, -, -⟩; exact absurd h2 (by omega)
  | succ m ih =>
    intro s k
    simp only [scanGo]
    by_cases hc : countLevel tg s > 14
    · rw [if_pos hc]
      constructor
      · intro h
        injection h with h
        subst h
        exact ⟨le_refl s, by omega, hc, fun j hj1 hj2 => absurd hj1 (by omega)⟩
      · rintro ⟨h1, h2, h3, h4⟩
        have hk : k = s := by
          by_contra hne
          have hlt : s < k := by omega
          exact absurd (h4 s (le_refl s) hlt) (by omega)
        rw [hk]
    · rw [if_neg hc]
      rw [ih (s + 1) k]
      constructor
      · rintro ⟨h1, h2, h3, h4⟩
        refine ⟨by omega, by omega, h3, fun j hj1 hj2 => ?_⟩
        rcases Nat.eq_or_lt_of_le hj1 with he | hl
        · rw [← he]; omega
        · exact h4 j (by omega) hj2
      · rintro ⟨h1, h2, h3, h4⟩
        have hks : k ≠ s := fun he => absurd (he ▸ h3) (by omega)
        exact ⟨by omega, by omega, h3, fun j hj1 hj2 => h4 j (by omega) hj2⟩

theorem scanGo_eq_none (tg : List TaggedLine) :
    ∀ (n s : Nat), scanGo tg s n = none ↔
      ∀ k, s ≤ k → k < s + n → countLevel tg k ≤ 14 := by
  intro n
  induction n with
  | zero =>
    intro s
    simp only [scanGo]
    constructor
    · intro _ k h1 h2; exact absurd h2 (by omega)
    · intro _; trivial
  | succ m ih =>
    intro s
    simp only [scanGo]
    by_cases hc : countLevel tg s > 14
    · rw [if_pos hc]
      constructor
      · intro h; exact absurd h (by simp)
      · intro h; exact absurd (h s (le_refl s) (by omega)) (by omega)
    · rw [if_neg hc]
      rw [ih (s + 1)]
      constructor
      · intro h k h1 h2
        rcases Nat.eq_or_lt_of_le h1 with he | hl
        · rw [← he]; omega
        · exact h k (by omega) (by omega)
      · intro h k h1 h2
        exact h k (by omega) (by omega)

/-- C6 (amended): the breakpoint is the lowest-indexed level among H1..H99
whose total tagged-line count exceeds 14, and no breakpoint is chosen when
no level in H1..H99 exceeds the threshold — but levels H100 and beyond are
never examined by the scan. -/
theorem c6_breakpoint_least (tg : List TaggedLine) :
    (∀ k, breakpointOf tg = some k ↔
      (1 ≤ k ∧ k ≤ 99 ∧ countLevel tg k > 14 ∧
       ∀ j, 1 ≤ j → j < k → countLevel tg j ≤ 14)) ∧
    (breakpointOf tg = none ↔ ∀ k, 1 ≤ k → k ≤ 99 → countLevel tg k ≤ 14) := by
  constructor
  · intro k
    rw [breakpointOf, scanGo_eq_some tg 99 1 k]
    constructor
    · rintro ⟨a, b, c, d⟩; exact ⟨a, by omega, c, d⟩
    · rintro ⟨a, b, c, d⟩; exact ⟨a, by omega, c, d⟩
  · rw [breakpointOf, scanGo_eq_none tg 99 1]
    constructor
    · intro h k h1 h2; exact h k h1 (by omega)
    · intro h k h1 h2; exact h k h1 (by omega)

/-- C6 witness: fifteen H2-tagged lines give breakpoint H2 via the
characterization. -/
theorem c6_breakpoint_least_witness : breakpointOf exH2Doc = some 2 := by
  apply ((c6_breakpoint_least exH2Doc).1 2).mpr
  refine ⟨by decide, by decide, by decide, ?_⟩
  intro j h1 h2
  have hj : j = 1 := by omega
  rw [hj]
  decide

/-- C6 counterexample: fifteen tagged lines at level H100 — that level's
count exceeds 14, yet no breakpoint is chosen, because the scan stops at
H99. -/
theorem c6_h100_counterexample :
    breakpointOf exH100Doc = none ∧ countLevel exH100Doc 100 = 15 := by decide

/-! ### No-breakpoint filter branch -/

theorem keepBelowMax_eq_filter (gs : List GHeading) (m : Nat) :
    keepBelowMax m gs =
      gs.filter (fun g => decide (levelIdx g.level < m) && decide (levelIdx g.level ≤ 6)) := by
  induction gs with
  | nil => rfl
  | cons g rest ih => simp only [keepBelowMax, List.filter_cons, ih]

/-- C1 (amended): with no breakpoint and at least one heading-tagged line,
the filter keeps exactly the grouped headings whose level index is strictly
below the deepest observed level and at most **6** (not 5): an H6 entry
survives whenever the deepest observed level is H7 or deeper.  The
hypothesis that every grouped heading carries a heading level matches the
pipeline (the source would raise on `int('_body')` otherwise). -/
theorem c1_nobreak_filter (tg : List TaggedLine) (gs : List GHeading)
    (hbp : breakpointOf tg = none)
    (hany : anyHLevel tg = true)
    (_hlev : ∀ g ∈ gs, isHeadingTag g.level = true) :
    filterByBreakpoint tg gs =
      gs.filter (fun g => decide (levelIdx g.level < maxObservedLevel tg) &&
                          decide (levelIdx g.level ≤ 6)) := by
  unfold filterByBreakpoint
  rw [hbp]
  simp only [hany, if_true]
  exact keepBelowMax_eq_filter gs (maxObservedLevel tg)

/-- C1 witness: the amended filter applied to a concrete no-breakpoint
document (deepest observed level H1, so nothing survives). -/
theorem c1_nobreak_filter_witness :
    filterByBreakpoint exFilterTagged exFilterGrouped = [] := by
  rw [c1_nobreak_filter exFilterTagged exFilterGrouped (by decide) (by decide) (by decide)]
  decide

/-- C1 counterexample: a document with seven observed levels and no
breakpoint whose final outline contains an H6 entry — contradicting the
claimed cap at 5. -/
theorem c1_h6_counterexample :
    breakpointOf (pipelineTagged exSevenLevels) = none ∧
    (processPdfPure none exSevenLevels).outline.map (fun e => e.level) =
      [Level.h 1, Level.h 2, Level.h 3, Level.h 4, Level.h 5, Level.h 6] := by decide

/-! ### Empty and heading-free documents -/

theorem filterByBreakpoint_nil (tg : List TaggedLine) : filterByBreakpoint tg [] = [] := by
  unfold filterByBreakpoint
  cases breakpointOf tg with
  | none =>
    by_cases h : anyHLevel tg = true
    · simp [h, keepBelowMax]
    · simp [h]
  | some k =>
    by_cases h : k = 1
    · simp [h, keepReclassH1]
    · simp [h, keepBelowCap]

/-- C9: a document with no extracted lines and no metadata title produces
the result with title "Untitled" and an empty outline, and — the pipeline
being total — classification finding zero headings always yields an empty
outline (never an error) for any metadata and input. -/
theorem c9_empty_ok :
    processPdfPure none [] = { title := "Untitled", outline := [] } ∧
    ∀ (md : Option String) (inputs : List LineInput),
      classifiedHeadings (pipelineTagged inputs) = [] →
      (processPdfPure md inputs).outline = [] := by
  constructor
  · rfl
  · intro md inputs h
    show (pipelineFiltered inputs).map stripFields = []
    unfold pipelineFiltered pipelineGrouped
    rw [h]
    rw [show group_vertical_headings (remove_duplicate_headings []) = [] from rfl]
    rw [filterByBreakpoint_nil]
    rfl

/-- C9 witness: the zero-headings conjunct applied at the empty document. -/
theorem c9_empty_ok_witness : (processPdfPure none []).outline = [] :=
  c9_empty_ok.2 none [] rfl

/-! ### Classifier rejection rules -/

/-- C5 (amended): the sentence rejection counts *space characters*, not
words: for a non-bracket-enclosed, non-lowercase-starting, non-body line,
length over 20 with a comma and **more than five spaces** forces rejection
— before the upper-case and bold accept rules, whatever the font name or
position. -/
theorem c5_sentence_reject (text : String) (level : Level)
    (x0 y0 pw ph : Option Q) (fn : Option String)
    (hbr : bracketEnclosed (pyStrip text) = false)
    (hlo : startsLowerAfterLstrip (pyStrip text) = false)
    (hbody : level ≠ Level.body)
    (hlen : (pyStrip text).length > 20)
    (hcomma : strContains (pyStrip text) "," = true)
    (hspaces : countChar (pyStrip text) ' ' > 5) :
    is_actual_heading text level x0 y0 pw ph fn = false := by
  have hsent : sentenceLike (pyStrip text) = true := by
    simp [sentenceLike, hlen, hcomma, hspaces]
  simp [is_actual_heading, hbr, hlo, hbody, hsent]

/-- C5 witness: a seven-word comma sentence is rejected via the theorem. -/
theorem c5_sentence_reject_witness :
    is_actual_heading "Aaaa bbbb, cccc dddd eeee ffff gggg" (Level.h 1)
      none none none none none = false :=
  c5_sentence_reject "Aaaa bbbb, cccc dddd eeee ffff gggg" (Level.h 1)
    none none none none none
    (by decide) (by decide) (by decide) (by decide) (by decide) (by decide)

/-- C5 counterexample: a *six*-word comma sentence of length 30 (five
spaces) satisfies the claim's premise "more than 5 space-separated words"
but is accepted by the classifier (the space count is 5, not more than 5,
so the sentence rule does not fire and the centered-position rule
accepts). -/
theorem c5_sixword_counterexample :
    exSixWords.length > 20 ∧ strContains exSixWords "," = true ∧
    wordsCount exSixWords > 5 ∧
    bracketEnclosed (pyStrip exSixWords) = false ∧
    startsLowerAfterLstrip (pyStrip exSixWords) = false ∧
    is_actual_heading exSixWords (Level.h 1) (some 50) (some 0) (some 100) (some 100)
      none = true := by decide

/-- C8 (amended): "March 2003" is rejected by the date rule only when the
bold-font accept — which runs *before* the date rule — does not fire: with
any font name free of bold-indicator substrings (none, or e.g. `Times`
without a `b`), the classifier rejects "March 2003" at every level and
position. -/
theorem c8_march2003_nonbold_reject (level : Level) (x0 y0 pw ph : Option Q)
    (fn : Option String) (hfn : boldFontIndicator fn = false) :
    is_actual_heading "March 2003" level x0 y0 pw ph fn = false := by
  have h0 : pyStrip "March 2003" = "March 2003" := by decide
  have h1 : bracketEnclosed "March 2003" = false := by decide
  have h2 : startsLowerAfterLstrip "March 2003" = false := by decide
  have h3 : sentenceLike "March 2003" = false := by decide
  have h4 : pyIsUpper "March 2003" = false := by decide
  have h5 : onlyDigitsPunct "March 2003" = false := by decide
  have h6 : is_date_or_month_or_number "March 2003" = true := by decide
  cases level with
  | body => simp [is_actual_heading, h0, h1, h2]
  | h k => simp [is_actual_heading, h0, h1, h2, h3, h4, h5, h6, hfn]

/-- C8 witness: with no font name, "March 2003" is rejected via the
theorem. -/
theorem c8_march2003_nonbold_reject_witness :
    is_actual_heading "March 2003" (Level.h 1) (some 50) (some 700) (some 612)
      (some 792) none = false :=
  c8_march2003_nonbold_reject (Level.h 1) (some 50) (some 700) (some 612) (some 792)
    none (by decide)

/-- C8 counterexample: "March 2003" *is* matched by the date rule, yet in
the font `Calibri` (lowercase contains the bold indicator `b`) the earlier
bold accept fires, and the line reaches the final outline of a concrete
document. -/
theorem c8_march2003_counterexample :
    is_date_or_month_or_number "March 2003" = true ∧
    (processPdfPure none exMarchDoc).outline =
      [{ level := Level.h 1, text := "March 2003", page := 1 }] := by decide

/-! ### Colon-splitting and emitted-text shape -/

theorem colonSplit_text (li : LineInput) :
    (colonSplit li).1 = lineCleanText li ∨
    ((colonSplit li).1 = strTake (lineCleanText li) (idxOfColon (lineCleanText li).toList) ∧
     strContains (lineCleanText li) ":" = true) := by
  unfold colonSplit
  dsimp only
  split
  case isTrue h =>
    split
    · left; rfl
    · split
      · split
        · right; exact ⟨rfl, h⟩
        · left; rfl
      · left; rfl
  case isFalse h => left; rfl

theorem toList_nil_iff (t : String) : t.toList = [] ↔ t = "" := by
  constructor
  · intro h
    have he : String.mk t.toList = t := rfl
    rw [h] at he
    exact he.symm
  · intro h
    rw [h]
    rfl

theorem strTake_empty (t : String) (n : Nat) (h : strTake t n = "") :
    n = 0 ∨ t.toList = [] := by
  unfold strTake at h
  have h2 : t.toList.take n = [] := by
    have h3 := congrArg String.toList h
    exact h3
  rcases n with _ | m
  · left; rfl
  · cases hl : t.toList with
    | nil => right; rfl
    | cons c cs =>
      rw [hl] at h2
      exact absurd h2 (by simp)

theorem idxOfColon_zero (c : Char) (cs : List Char) (h : idxOfColon (c :: cs) = 0) :
    c = ':' := by
  by_contra hne
  have : idxOfColon (c :: cs) = 1 + idxOfColon cs := by simp [idxOfColon, hne]
  omega

/-- C3 (amended): every record emitted by the extraction stage has
non-empty text **unless** the colon-splitting truncation fired on a cleaned
line that begins with a colon — the emptiness guard runs *before* the
truncation, so such a record is emitted with empty text and does enter the
tagging pipeline. -/
theorem c3_nonempty_unless_leading_colon (li : LineInput) (r : RawLine)
    (hproc : processLine li = some r) (hempty : r.text = "") :
    (lineCleanText li).toList.head? = some ':' := by
  unfold processLine at hproc
  split at hproc
  case isTrue h => exact absurd hproc (by simp)
  case isFalse hne =>
    have hr : r.text = (colonSplit li).1 := by
      have h2 := hproc
      injection h2 with h3
      rw [← h3]
    rcases colonSplit_text li with hcase | ⟨hcase, -⟩
    · have : lineCleanText li = "" := by
        rw [← hcase, ← hr]
        exact hempty
      exact absurd this hne
    · have htake : strTake (lineCleanText li) (idxOfColon (lineCleanText li).toList) = "" := by
        rw [← hcase, ← hr]
        exact hempty
      rcases strTake_empty _ _ htake with hzero | hnil
      · cases hl : (lineCleanText li).toList with
        | nil => exact absurd ((toList_nil_iff _).mp hl) hne
        | cons c cs =>
          rw [hl] at hzero
          rw [idxOfColon_zero c cs hzero]
          rfl
      · exact absurd ((toList_nil_iff _).mp hnil) hne

/-- C3 witness: the amended theorem applied to the concrete truncated
line. -/
theorem c3_nonempty_unless_leading_colon_witness :
    (lineCleanText exColonLine).toList.head? = some ':' :=
  c3_nonempty_unless_leading_colon exColonLine exColonRec (by decide) (by decide)

/-- C3 counterexample: a line whose cleaned text is ": A" with a font
change across the colon is truncated to the empty string *after* the
emptiness guard, so a record with empty text is emitted into the
pipeline. -/
theorem c3_empty_text_counterexample :
    processLine exColonLine = some exColonRec ∧ exColonRec.text = "" := by decide

/-! ### Title resolution chain -/

theorem resolveTitle_falsy (md : Option String) (g : List GHeading) (tg : List TaggedLine)
    (h : mdFalsy md = true) : resolveTitle md g tg = resolveTitleNoMeta g tg := by
  cases md with
  | none => rfl
  | some t =>
    have ht : t = "" := by simpa [mdFalsy] using h
    simp [resolveTitle, ht]

/-- C4 (amended): the title chain is — truthy metadata title verbatim;
else the text of the first maximal-font-size **classified grouped heading**
(post-classifier, post-dedup, post-grouping; non-body level, truthy font
size) on page 1, else page 2; else the first maximal-font-size tagged line
with truthy font size on page 1, else page 2; else "Untitled" — stopping at
the first page whose candidate pool is non-empty and never merging across
pages.  (The claim's "heading-level tagged line" pool is wrong: the code
draws tier 2 from the classified grouped headings.) -/
theorem c4_title_chain (md : Option String) (grouped : List GHeading)
    (tagged : List TaggedLine) :
    (∀ t, md = some t → t ≠ "" → resolveTitle md grouped tagged = t) ∧
    (mdFalsy md = true →
      ((∀ g gs, titleHeadingPool grouped 1 = g :: gs →
          resolveTitle md grouped tagged = (firstMaxByQ gKey g gs).text) ∧
       (titleHeadingPool grouped 1 = [] → ∀ g gs, titleHeadingPool grouped 2 = g :: gs →
          resolveTitle md grouped tagged = (firstMaxByQ gKey g gs).text) ∧
       (titleHeadingPool grouped 1 = [] → titleHeadingPool grouped 2 = [] →
          ∀ l ls, titleLinePool tagged 1 = l :: ls →
          resolveTitle md grouped tagged = (firstMaxByQ tKey l ls).text) ∧
       (titleHeadingPool grouped 1 = [] → titleHeadingPool grouped 2 = [] →
          titleLinePool tagged 1 = [] → ∀ l ls, titleLinePool tagged 2 = l :: ls →
          resolveTitle md grouped tagged = (firstMaxByQ tKey l ls).text) ∧
       (titleHeadingPool grouped 1 = [] → titleHeadingPool grouped 2 = [] →
          titleLinePool tagged 1 = [] → titleLinePool tagged 2 = [] →
          resolveTitle md grouped tagged = "Untitled"))) := by
  constructor
  · intro t hmd hne
    rw [hmd]
    simp [resolveTitle, hne]
  · intro hf
    rw [resolveTitle_falsy md grouped tagged hf]
    refine ⟨?_, ?_, ?_, ?_, ?_⟩
    · intro g gs h1
      unfold resolveTitleNoMeta
      rw [h1]
    · intro h1 g gs h2
      unfold resolveTitleNoMeta
      rw [h1, h2]
    · intro h1 h2 l ls h3
      unfold resolveTitleNoMeta
      rw [h1, h2, h3]
    · intro h1 h2 h3 l ls h4
      unfold resolveTitleNoMeta
      rw [h1, h2, h3, h4]
    · intro h1 h2 h3 h4
      unfold resolveTitleNoMeta
      rw [h1, h2, h3, h4]

/-- C4 witness: the chain theorem applied at concrete inputs for the
metadata tier and the "Untitled" tier. -/
theorem c4_title_chain_witness :
    resolveTitle (some "The Title") [] [] = "The Title" ∧
    resolveTitle none [] [] = "Untitled" := by
  constructor
  · exact (c4_title_chain (some "The Title") [] []).1 "The Title" rfl (by decide)
  · exact ((c4_title_chain none [] []).2 (by decide)).2.2.2.2 rfl rfl rfl rfl

/-- C4 counterexample: on page 1 the largest-font heading-level *tagged*
line is "(Draft)" (size 30, rejected by the classifier), yet the resolved
title is "HELLO WORLD" (size 20, the largest *classified* heading) — the
claim's tier-2 candidate pool is not the tagged lines. -/
theorem c4_title_counterexample :
    (processPdfPure none exDraftDoc).title = "HELLO WORLD" ∧
    ((pipelineTagged exDraftDoc).filter
        (fun l => (l.page == 1) && isHeadingTag l.level)).map
      (fun l => (l.text, l.font_size)) =
      [("(Draft)", some ⟨30, 1⟩), ("HELLO WORLD", some ⟨20, 1⟩)] := by decide

/-! ### Level flow through the pipeline -/

theorem mem_sortInsertH (x : Heading) (l : List Heading) (y : Heading) :
    y ∈ sortInsertH x l ↔ y = x ∨ y ∈ l := by
  induction l with
  | nil => simp [sortInsertH]
  | cons z zs ih =>
    simp only [sortInsertH]
    split
    · simp [List.mem_cons]
    · simp only [List.mem_cons, ih]
      tauto

theorem mem_sortHeadings (l : List Heading) (y : Heading) :
    y ∈ sortHeadings l ↔ y ∈ l := by
  induction l with
  | nil => simp [sortHeadings]
  | cons x xs ih => simp [sortHeadings, mem_sortInsertH, ih]

theorem firstMaxByNat_mem {α : Type} (key : α → Nat) (l : List α) :
    ∀ a, firstMaxByNat key a l ∈ a :: l := by
  induction l with
  | nil => intro a; simp [firstMaxByNat]
  | cons x xs ih =>
    intro a
    have h := ih (if key a < key x then x else a)
    simp only [firstMaxByNat, List.foldl_cons]
    rcases List.mem_cons.mp h with h1 | h1
    · rw [show List.foldl (fun best z => if key best < key z then z else best)
          (if key a < key x then x else a) xs = firstMaxByNat key (if key a < key x then x else a) xs
          from rfl, h1]
      split
      · exact List.mem_cons_of_mem a (List.mem_cons_self x xs)
      · exact List.mem_cons_self a (x :: xs)
    · exact List.mem_cons_of_mem a (List.mem_cons_of_mem x h1)

theorem distinctFO_aux {α : Type} [DecidableEq α] (l : List α) :
    ∀ (acc : List α) (x : α),
      x ∈ l.foldl (fun ks y => if ks.contains y then ks else ks ++ [y]) acc →
      x ∈ acc ∨ x ∈ l := by
  induction l with
  | nil => intro acc x h; exact Or.inl h
  | cons y ys ih =>
    intro acc x h
    simp only [List.foldl_cons] at h
    rcases ih _ x h with h1 | h1
    · split at h1
      · exact Or.inl h1
      · rcases List.mem_append.mp h1 with h2 | h2
        · exact Or.inl h2
        · right
          rw [List.mem_singleton.mp h2]
          exact List.mem_cons_self y ys
    · exact Or.inr (List.mem_cons_of_mem y h1)

theorem distinctFO_subset {α : Type} [DecidableEq α] (l : List α) (x : α)
    (h : x ∈ distinctFO l) : x ∈ l := by
  rcases distinctFO_aux l [] x h with h1 | h1
  · exact absurd h1 (List.not_mem_nil x)
  · exact h1

theorem majorityLevel_mem (f : Level) (rest : List Level) :
    majorityLevel f rest ∈ f :: rest := by
  unfold majorityLevel
  cases hd : distinctFO (f :: rest) with
  | nil => exact List.mem_cons_self f rest
  | cons k ks =>
    have h1 : firstMaxByNat (countIn (f :: rest)) k ks ∈ k :: ks :=
      firstMaxByNat_mem (countIn (f :: rest)) ks k
    rw [← hd] at h1
    exact distinctFO_subset _ _ h1

theorem closeGroup_level_mem (a : Heading) (ms : List Heading) :
    (closeGroup a ms).level ∈ (a :: ms).map (fun h => h.level) := by
  cases ms with
  | nil => simp [closeGroup, singleGHeading]
  | cons m ms2 =>
    have h := majorityLevel_mem a.level ((m :: ms2).map (fun h => h.level))
    simpa [closeGroup, mergedGHeading] using h

theorem groupFold_level_mem (l : List Heading) :
    ∀ (a : Heading) (ms : List Heading) (g : GHeading), g ∈ groupFold a ms l →
      g.level ∈ ((a :: ms) ++ l).map (fun h => h.level) := by
  induction l with
  | nil =>
    intro a ms g hg
    simp only [groupFold, List.mem_singleton] at hg
    rw [hg]
    simpa using closeGroup_level_mem a ms
  | cons nh rest ih =>
    intro a ms g hg
    simp only [groupFold] at hg
    split at hg
    · have h2 := ih a (ms ++ [nh]) g hg
      simp only [List.map_cons, List.map_append, List.mem_cons, List.mem_append] at h2 ⊢
      tauto
    · rcases List.mem_cons.mp hg with h1 | h1
      · rw [h1]
        have h2 := closeGroup_level_mem a ms
        simp only [List.map_cons, List.map_append, List.mem_cons, List.mem_append] at h2 ⊢
        tauto
      · have h2 := ih nh [] g h1
        simp only [List.map_cons, List.map_append, List.mem_cons, List.mem_append,
          List.map_nil, List.not_mem_nil] at h2 ⊢
        tauto

theorem group_levels (hs : List Heading) (g : GHeading)
    (hg : g ∈ group_vertical_headings hs) : ∃ hd ∈ hs, g.level = hd.level := by
  unfold group_vertical_headings at hg
  cases hsort : sortHeadings hs with
  | nil =>
    rw [hsort] at hg
    exact absurd hg (List.not_mem_nil g)
  | cons c rest =>
    rw [hsort] at hg
    have hg2 : g ∈ groupFold c [] rest := hg
    have h1 := groupFold_level_mem rest c [] g hg2
    have h2 : g.level ∈ (c :: rest).map (fun h => h.level) := by simpa using h1
    rcases List.mem_map.mp h2 with ⟨hd, hmem, heq⟩
    refine ⟨hd, ?_, heq.symm⟩
    have h3 : hd ∈ sortHeadings hs := by rw [hsort]; exact hmem
    exact (mem_sortHeadings hs hd).mp h3

theorem assignLevel_shape (fs : Option Q) (uniq : List Q) :
    assignLevel fs uniq = Level.body ∨ ∃ k, assignLevel fs uniq = Level.h (k + 1) := by
  unfold assignLevel
  cases fs with
  | none => exact Or.inl rfl
  | some s =>
    dsimp only
    by_cases hnum : (s.num != 0) = true
    · rw [if_pos hnum]
      cases hc : closestGo s uniq 0 none with
      | none => exact Or.inl rfl
      | some i => exact Or.inr ⟨i, rfl⟩
    · rw [if_neg hnum]
      exact Or.inl rfl

theorem tag_levels (at_ : List RawLine) (tl : TaggedLine)
    (h : tl ∈ tag_by_font_hierarchy at_) :
    tl.level = Level.body ∨ ∃ k, tl.level = Level.h (k + 1) := by
  unfold tag_by_font_hierarchy at h
  split at h
  · exact absurd h (List.not_mem_nil tl)
  · rcases List.mem_map.mp h with ⟨it, hmem, heq⟩
    have h2 := congrArg TaggedLine.level heq
    rw [← h2]
    exact assignLevel_shape it.font_size _

theorem classified_level_shape (tg : List TaggedLine) (hd : Heading)
    (h : hd ∈ classifiedHeadings tg) :
    ∃ tl ∈ tg, hd.level = tl.level ∧ isHeadingTag tl.level = true := by
  unfold classifiedHeadings at h
  rcases List.mem_filterMap.mp h with ⟨tl, hmem, hcl⟩
  unfold classifyLine at hcl
  split at hcl
  · rename_i hcond
    injection hcl with hcl
    rw [Bool.and_eq_true] at hcond
    refine ⟨tl, hmem, ?_, hcond.1⟩
    rw [← hcl]
  · exact absurd hcl (by simp)

theorem dedup_subset (l : List Heading) :
    ∀ (seen : List (String × Level)) (x : Heading), x ∈ dedupGo seen l → x ∈ l := by
  induction l with
  | nil => intro seen x h; exact absurd h (List.not_mem_nil x)
  | cons y ys ih =>
    intro seen x h
    simp only [dedupGo] at h
    split at h
    · exact List.mem_cons_of_mem y (ih _ x h)
    · rcases List.mem_cons.mp h with h1 | h1
      · rw [h1]; exact List.mem_cons_self y ys
      · exact List.mem_cons_of_mem y (ih _ x h1)

theorem keepBelowCap_mem (k : Nat) (gs : List GHeading) (g : GHeading)
    (h : g ∈ keepBelowCap k gs) :
    g ∈ gs ∧ levelIdx g.level < k ∧ levelIdx g.level ≤ 6 := by
  induction gs with
  | nil => exact absurd h (List.not_mem_nil g)
  | cons x xs ih =>
    simp only [keepBelowCap] at h
    split at h
    · rename_i hcond
      rcases List.mem_cons.mp h with h1 | h1
      · rw [h1]
        rw [Bool.and_eq_true, decide_eq_true_eq, decide_eq_true_eq] at hcond
        exact ⟨List.mem_cons_self x xs, hcond.1, hcond.2⟩
      · have h2 := ih h1
        exact ⟨List.mem_cons_of_mem x h2.1, h2.2.1, h2.2.2⟩
    · have h2 := ih h
      exact ⟨List.mem_cons_of_mem x h2.1, h2.2.1, h2.2.2⟩

theorem keepBelowMax_mem (m : Nat) (gs : List GHeading) (g : GHeading)
    (h : g ∈ keepBelowMax m gs) :
    g ∈ gs ∧ levelIdx g.level < m ∧ levelIdx g.level ≤ 6 := by
  rw [keepBelowMax_eq_filter] at h
  have h2 := List.mem_filter.mp h
  have h3 := h2.2
  rw [Bool.and_eq_true, decide_eq_true_eq, decide_eq_true_eq] at h3
  exact ⟨h2.1, h3.1, h3.2⟩

theorem keepReclassH1_mem (gs : List GHeading) (g : GHeading)
    (h : g ∈ keepReclassH1 gs) : g ∈ gs ∧ g.level = Level.h 1 := by
  induction gs with
  | nil => exact absurd h (List.not_mem_nil g)
  | cons x xs ih =>
    simp only [keepReclassH1] at h
    split at h
    · rename_i hcond
      rcases List.mem_cons.mp h with h1 | h1
      · rw [h1]
        rw [Bool.and_eq_true] at hcond
        exact ⟨List.mem_cons_self x xs, by simpa using hcond.1⟩
      · have h2 := ih h1
        exact ⟨List.mem_cons_of_mem x h2.1, h2.2⟩
    · have h2 := ih h
      exact ⟨List.mem_cons_of_mem x h2.1, h2.2⟩

/-- C7: every entry of the emitted outline has a level among H1..H6 (index
between 1 and 6), and carries exactly the fields of a surviving filtered
heading — `OutlineEntry` has exactly `level`, `text`, `page`; all other
attributes are stripped by `stripFields`. -/
theorem c7_outline_levels (md : Option String) (inputs : List LineInput) :
    ∀ e ∈ (processPdfPure md inputs).outline,
      (∃ k, e.level = Level.h k ∧ 1 ≤ k ∧ k ≤ 6) ∧
      ∃ g ∈ pipelineFiltered inputs, e.level = g.level ∧ e.text = g.text ∧ e.page = g.page := by
  intro e he
  have he2 : e ∈ (pipelineFiltered inputs).map stripFields := he
  rcases List.mem_map.mp he2 with ⟨g, hgmem, hge⟩
  have hfields : e.level = g.level ∧ e.text = g.text ∧ e.page = g.page := by
    rw [← hge]; exact ⟨rfl, rfl, rfl⟩
  refine ⟨?_, ⟨g, hgmem, hfields⟩⟩
  have hglev : ∀ g2 ∈ pipelineGrouped inputs, ∃ k2, g2.level = Level.h (k2 + 1) := by
    intro g2 hg2
    rcases group_levels _ g2 hg2 with ⟨hd, hdmem, heq⟩
    have hd2 := dedup_subset _ _ hd hdmem
    rcases classified_level_shape _ hd hd2 with ⟨tl, htl, hlev, htag⟩
    rcases tag_levels _ tl htl with hbody | ⟨k2, hk⟩
    · rw [hbody] at htag
      exact absurd htag (by simp [isHeadingTag])
    · exact ⟨k2, by rw [heq, hlev, hk]⟩
  have hgmem2 : g ∈ filterByBreakpoint (pipelineTagged inputs) (pipelineGrouped inputs) := hgmem
  unfold filterByBreakpoint at hgmem2
  cases hb : breakpointOf (pipelineTagged inputs) with
  | some k =>
    rw [hb] at hgmem2
    have hgmem3 : g ∈ (if k = 1 then keepReclassH1 (pipelineGrouped inputs)
        else keepBelowCap k (pipelineGrouped inputs)) := hgmem2
    by_cases hk1 : k = 1
    · rw [if_pos hk1] at hgmem3
      have h3 := keepReclassH1_mem _ g hgmem3
      exact ⟨1, by rw [hfields.1, h3.2], by omega, by omega⟩
    · rw [if_neg hk1] at hgmem3
      have h3 := keepBelowCap_mem k _ g hgmem3
      rcases hglev g h3.1 with ⟨k2, hk2⟩
      have hidx : levelIdx g.level = k2 + 1 := by rw [hk2]; rfl
      refine ⟨k2 + 1, by rw [hfields.1, hk2], by omega, ?_⟩
      have h6 := h3.2.2
      omega
  | none =>
    rw [hb] at hgmem2
    have hgmem3 : g ∈ (if anyHLevel (pipelineTagged inputs) then
        keepBelowMax (maxObservedLevel (pipelineTagged inputs)) (pipelineGrouped inputs)
        else []) := hgmem2
    by_cases hany : anyHLevel (pipelineTagged inputs) = true
    · rw [if_pos hany] at hgmem3
      have h3 := keepBelowMax_mem _ _ g hgmem3
      rcases hglev g h3.1 with ⟨k2, hk2⟩
      have hidx : levelIdx g.level = k2 + 1 := by rw [hk2]; rfl
      refine ⟨k2 + 1, by rw [hfields.1, hk2], by omega, ?_⟩
      have h6 := h3.2.2
      omega
    · rw [if_neg hany] at hgmem3
      exact absurd hgmem3 (List.not_mem_nil g)

/-- C7 witness: the theorem applied to the concrete entry of a two-line
document's outline. -/
theorem c7_outline_levels_witness :
    (∃ k, ({ level := Level.h 1, text := "AAA", page := 1 } : OutlineEntry).level =
        Level.h k ∧ 1 ≤ k ∧ k ≤ 6) ∧
    ∃ g ∈ pipelineFiltered exTwoLineDoc,
      ({ level := Level.h 1, text := "AAA", page := 1 } : OutlineEntry).level = g.level ∧
      ({ level := Level.h 1, text := "AAA", page := 1 } : OutlineEntry).text = g.text ∧
      ({ level := Level.h 1, text := "AAA", page := 1 } : OutlineEntry).page = g.page :=
  c7_outline_levels none exTwoLineDoc
    { level := Level.h 1, text := "AAA", page := 1 } (by decide)

end PdfOutline
